import Mathlib

/-!
Shallow embedding of the extraction core of `src/main.py`
(`extract_games_from_html`, lines 45-133).

A parsed document is modelled as a flat sequence of blocks: headings
(with their level and raw text), tables (a list of rows, each row a list
of raw cell texts, i.e. the result of BeautifulSoup `get_text()` before
`strip()`), and other blocks which the extractor never inspects.
`find_previous(['h2','h3'])` on a table is the nearest preceding heading
of level 2 or 3, which the fold below tracks in an accumulator.

Python `str.strip()` is modelled by `pyStrip` (drop Unicode whitespace on
both ends), `str.lower()` by `pyLower` (`Char.toLower`, ASCII case map),
the substring test `pat in s` by `containsL`/`strContains`, and the regex
search `re.search(r'19(\d{2})', s)` by `scan19` (leftmost occurrence of
the character '1' then '9' then two decimal digits; digits are modelled
as ASCII digits).  The per-call Python `set` of seen keys is a list of
strings with membership testing, which is observationally the same.
-/

/-- One extracted game, the dictionary built at `main.py` lines 122-128. -/
structure GameRecord where
  title : String
  publisher : String
  year : Nat
  release_date : String
  region : String
deriving DecidableEq

/-- A block of the parsed document: a heading of a given level with its
raw text, a table given by its rows of raw cell texts, or any other
block (paragraph, list, ...), which the extractor ignores. -/
inductive Elem where
  | heading (level : Nat) (text : String)
  | table (rows : List (List String))
  | other
deriving DecidableEq

/-- Python `str.strip()`: remove leading and trailing whitespace. -/
def pyStrip (s : String) : String :=
  ⟨((s.data.dropWhile Char.isWhitespace).reverse.dropWhile Char.isWhitespace).reverse⟩

/-- Python `str.lower()` (ASCII case mapping, like `Char.toLower`). -/
def pyLower (s : String) : String :=
  ⟨s.data.map Char.toLower⟩

/-- Does the character list start with the given pattern? -/
def startsWithL : List Char → List Char → Bool
  | [], _ => true
  | _ :: _, [] => false
  | p :: ps, c :: cs => p == c && startsWithL ps cs

/-- Does the pattern occur as a contiguous run inside the list?
Models Python `pat in s` on strings. -/
def containsL : List Char → List Char → Bool
  | l, pat =>
    startsWithL pat l ||
      match l with
      | [] => false
      | _ :: cs => containsL cs pat

/-- Python `pat in s` substring test on strings. -/
def strContains (s pat : String) : Bool :=
  containsL s.data pat.data

/-- Numeric value of an ASCII digit character. -/
def digitVal (c : Char) : Nat := c.toNat - 48

/-- `re.search(r'19(\d{2})', ·)` on the character list: find the leftmost
position where '1', '9' and two decimal digits follow each other, and
return the value of the two captured digits. -/
def scan19 : List Char → Option Nat
  | [] => none
  | c :: cs =>
    match cs with
    | c1 :: c2 :: c3 :: _ =>
      if c == '1' && c1 == '9' && c2.isDigit && c3.isDigit then
        some (digitVal c2 * 10 + digitVal c3)
      else
        scan19 cs
    | _ => scan19 cs

/-- The mutable extraction state of one call: the `seen_titles` set of
uniqueness keys (line 64) and the `games` accumulator (line 63). -/
structure ExtState where
  seen : List String
  games : List GameRecord
deriving DecidableEq

/-- The fresh state at the start of one extraction run. -/
def initState : ExtState := ⟨[], []⟩

/-- The uniqueness key of a record, as the f-string of line 119 builds
it: `f"{title}_{year}_{current_region}"`. -/
def recordKey (r : GameRecord) : String :=
  r.title ++ "_" ++ toString r.year ++ "_" ++ r.region

/-- Lines 99-131: process one data row.  Requires at least 3 cells, skips
unlicensed titles, extracts the year from the date text, applies the
inclusive year range, and appends a record unless its key was seen. -/
def processRow (min_year max_year : Int) (st : ExtState) (row : List String) : ExtState :=
  match row with
  | c0 :: c1 :: c2 :: _ =>
    let title := pyStrip c0
    if strContains title "(Unlicensed)" then st
    else
      let publisher := pyStrip c1
      let release_date := pyStrip c2
      match scan19 release_date.data with
      | none => st
      | some year =>
        if min_year ≤ (year : Int) ∧ (year : Int) ≤ max_year then
          let key := title ++ "_" ++ toString year ++ "_" ++ "North America"
          if key ∈ st.seen then st
          else ⟨key :: st.seen,
                st.games ++ [⟨title, publisher, year, release_date, "North America"⟩]⟩
        else st
  | _ => st

/-- Lines 71-94: a table qualifies when its nearest preceding h2/h3
heading exists, its stripped lower-cased text contains "north america",
the table has a header row, and that row has a cell whose stripped
lower-cased text is exactly "title" or "game". -/
def tableQualifies (lastH : Option String) (rows : List (List String)) : Bool :=
  match lastH with
  | none => false
  | some h =>
    if strContains (pyLower (pyStrip h)) "north america" then
      match rows with
      | [] => false
      | hr :: _ =>
        let header_texts := hr.map (fun c => pyLower (pyStrip c))
        header_texts.contains "title" || header_texts.contains "game"
    else false

/-- One step of the document walk.  The first component of the state is
the text of the nearest preceding h2/h3 heading (what
`find_previous(['h2','h3'])` would return for a table at this point);
the second is the extraction state.  A qualifying table folds
`processRow` over its data rows, `rows[1:]`. -/
def stepElem (min_year max_year : Int) (s : Option String × ExtState) (e : Elem) :
    Option String × ExtState :=
  match e with
  | Elem.heading lvl t => if lvl = 2 ∨ lvl = 3 then (some t, s.2) else s
  | Elem.table rows =>
    if tableQualifies s.1 rows then
      (s.1, (rows.drop 1).foldl (processRow min_year max_year) s.2)
    else s
  | Elem.other => s

/-- `extract_games_from_html` (lines 45-133): walk the document blocks in
order and return the accumulated game list.  Defaults are
`min_year=85`, `max_year=95`. -/
def extract_games_from_html (doc : List Elem) (min_year : Int := 85) (max_year : Int := 95) :
    List GameRecord :=
  ((doc.foldl (stepElem min_year max_year) (none, initState)).2).games

/-- The rows of the Scenario A table: a header row with a "Title"
column and two well-formed data rows. -/
def scenarioA_rows : List (List String) :=
  [["Title", "Publisher", "Release date"],
   ["Super Mario Bros.", "Nintendo", "September 13, 1985"],
   ["The Legend of Zelda", "Nintendo", "February 21, 1986"]]

/-- Scenario A document: one qualifying table under heading
"North America" with two well-formed rows. -/
def scenarioA_doc : List Elem :=
  [Elem.heading 2 "North America", Elem.table scenarioA_rows]

/-- The first record Scenario A produces. -/
def smbRecord : GameRecord :=
  ⟨"Super Mario Bros.", "Nintendo", 85, "September 13, 1985", "North America"⟩

/-- The second record Scenario A produces. -/
def zeldaRecord : GameRecord :=
  ⟨"The Legend of Zelda", "Nintendo", 86, "February 21, 1986", "North America"⟩

/-- Invariant maintained by one extraction run: every emitted record's
uniqueness key is registered in `seen`, emitted keys are pairwise
distinct, and every emitted record passed the per-row guards (year
range, no unlicensed marker, year extracted from the date text, fixed
region). -/
def StInv (min_year max_year : Int) (st : ExtState) : Prop :=
  (∀ r ∈ st.games, recordKey r ∈ st.seen) ∧
  st.games.Pairwise (fun a b => recordKey a ≠ recordKey b) ∧
  (∀ r ∈ st.games,
    min_year ≤ (r.year : Int) ∧ (r.year : Int) ≤ max_year ∧
    strContains r.title "(Unlicensed)" = false ∧
    scan19 r.release_date.data = some r.year ∧
    r.region = "North America")

theorem stInv_init (min_year max_year : Int) : StInv min_year max_year initState := by
  refine ⟨?_, ?_, ?_⟩ <;> simp [initState]

theorem processRow_stInv (min_year max_year : Int) (st : ExtState) (row : List String)
    (h : StInv min_year max_year st) :
    StInv min_year max_year (processRow min_year max_year st row) := by
  obtain ⟨hkeys, hpair, hprops⟩ := h
  rcases row with _ | ⟨c0, _ | ⟨c1, _ | ⟨c2, rest⟩⟩⟩
  · exact ⟨hkeys, hpair, hprops⟩
  · exact ⟨hkeys, hpair, hprops⟩
  · exact ⟨hkeys, hpair, hprops⟩
  · cases hu : strContains (pyStrip c0) "(Unlicensed)" with
    | true => simp only [processRow, hu, if_true]; exact ⟨hkeys, hpair, hprops⟩
    | false =>
      cases hs : scan19 (pyStrip c2).data with
      | none =>
        simp only [processRow, hu, Bool.false_eq_true, if_false, hs]
        exact ⟨hkeys, hpair, hprops⟩
      | some year =>
        by_cases hr : min_year ≤ (year : Int) ∧ (year : Int) ≤ max_year
        · by_cases hk :
            (pyStrip c0 ++ "_" ++ toString year ++ "_" ++ "North America") ∈ st.seen
          · simp only [processRow, hu, Bool.false_eq_true, if_false, hs, hr, and_self, if_true, hk]
            exact ⟨hkeys, hpair, hprops⟩
          · simp only [processRow, hu, Bool.false_eq_true, if_false, hs, hr, and_self, if_true, hk]
            refine ⟨?_, ?_, ?_⟩
            · intro r hr2
              rcases List.mem_append.mp hr2 with hr3 | hr3
              · exact List.mem_cons_of_mem _ (hkeys r hr3)
              · rcases List.mem_singleton.mp hr3 with rfl
                exact List.mem_cons_self _ _
            · rw [List.pairwise_append]
              refine ⟨hpair, List.pairwise_singleton _ _, ?_⟩
              intro a ha b hb heq
              rcases List.mem_singleton.mp hb with rfl
              have hmem := hkeys a ha
              rw [heq] at hmem
              exact hk hmem
            · intro r hr2
              rcases List.mem_append.mp hr2 with hr3 | hr3
              · exact hprops r hr3
              · rcases List.mem_singleton.mp hr3 with rfl
                exact ⟨hr.1, hr.2, hu, hs, rfl⟩
        · simp only [processRow, hu, Bool.false_eq_true, if_false, hs, hr]
          exact ⟨hkeys, hpair, hprops⟩

theorem foldRows_stInv (min_year max_year : Int) (rows : List (List String)) (st : ExtState)
    (h : StInv min_year max_year st) :
    StInv min_year max_year (rows.foldl (processRow min_year max_year) st) := by
  induction rows generalizing st with
  | nil => exact h
  | cons r rs ih => exact ih _ (processRow_stInv min_year max_year st r h)

theorem stepElem_stInv (min_year max_year : Int) (s : Option String × ExtState) (e : Elem)
    (h : StInv min_year max_year s.2) :
    StInv min_year max_year (stepElem min_year max_year s e).2 := by
  cases e with
  | heading lvl t =>
    by_cases h23 : lvl = 2 ∨ lvl = 3 <;> simp only [stepElem, h23, if_true, if_false] <;>
      exact h
  | table rows =>
    cases hq : tableQualifies s.1 rows with
    | true =>
      simp only [stepElem, hq, if_true]
      exact foldRows_stInv min_year max_year _ _ h
    | false => simp only [stepElem, hq, Bool.false_eq_true, if_false]; exact h
  | other => exact h

theorem extract_state_stInv (doc : List Elem) (min_year max_year : Int) :
    StInv min_year max_year
      ((doc.foldl (stepElem min_year max_year) (none, initState)).2) := by
  suffices h : ∀ s : Option String × ExtState, StInv min_year max_year s.2 →
      StInv min_year max_year ((doc.foldl (stepElem min_year max_year) s).2) from
    h (none, initState) (stInv_init min_year max_year)
  induction doc with
  | nil => exact fun s hs => hs
  | cons e es ih =>
    exact fun s hs => ih _ (stepElem_stInv min_year max_year s e hs)

/-- Unfolding `containsL` one character: the pattern occurs in `c :: cs`
iff it starts there or occurs in `cs`. -/
theorem containsL_cons (c : Char) (cs pat : List Char) :
    containsL (c :: cs) pat = (startsWithL pat (c :: cs) || containsL cs pat) := rfl

theorem scan19_nil : scan19 [] = none := rfl

theorem scan19_one (c : Char) : scan19 [c] = none := rfl

theorem scan19_two (c c1 : Char) : scan19 [c, c1] = none := rfl

theorem scan19_three (c c1 c2 : Char) : scan19 [c, c1, c2] = none := rfl

theorem scan19_cons4 (c c1 c2 c3 : Char) (rest : List Char) :
    scan19 (c :: c1 :: c2 :: c3 :: rest) =
      if c == '1' && c1 == '9' && c2.isDigit && c3.isDigit then
        some (digitVal c2 * 10 + digitVal c3)
      else scan19 (c1 :: c2 :: c3 :: rest) := rfl

/-- When the year scan succeeds, the scanned text contains the character
'1', then '9', then two decimal digits, and the result is the value of
those two digits. -/
theorem scan19_gives (l : List Char) (y : Nat) (h : scan19 l = some y) :
    ∃ d1 d2 : Char, d1.isDigit = true ∧ d2.isDigit = true ∧
      containsL l ['1', '9', d1, d2] = true ∧ y = digitVal d1 * 10 + digitVal d2 := by
  induction l with
  | nil => rw [scan19_nil] at h; exact Option.noConfusion h
  | cons c cs ih =>
    rcases cs with _ | ⟨c1, _ | ⟨c2, _ | ⟨c3, rest⟩⟩⟩
    · rw [scan19_one] at h; exact Option.noConfusion h
    · rw [scan19_two] at h; exact Option.noConfusion h
    · rw [scan19_three] at h; exact Option.noConfusion h
    · rw [scan19_cons4] at h
      by_cases hc : (c == '1' && c1 == '9' && c2.isDigit && c3.isDigit) = true
      · rw [if_pos hc] at h
        have hy : y = digitVal c2 * 10 + digitVal c3 := (Option.some.inj h).symm
        simp only [Bool.and_eq_true, beq_iff_eq] at hc
        obtain ⟨⟨⟨rfl, rfl⟩, hd2⟩, hd3⟩ := hc
        refine ⟨c2, c3, hd2, hd3, ?_, hy⟩
        rw [containsL_cons]
        simp [startsWithL]
      · rw [if_neg hc] at h
        obtain ⟨d1, d2, h1, h2, h3, h4⟩ := ih h
        exact ⟨d1, d2, h1, h2, by rw [containsL_cons, h3, Bool.or_true], h4⟩

/-- A heading whose level is neither 2 nor 3 does not update the tracked
nearest h2/h3 heading and changes nothing. -/
theorem stepElem_heading_ne (min_year max_year : Int) (s : Option String × ExtState)
    (lvl : Nat) (t : String) (h2 : lvl ≠ 2) (h3 : lvl ≠ 3) :
    stepElem min_year max_year s (Elem.heading lvl t) = s := by
  have h23 : ¬(lvl = 2 ∨ lvl = 3) := by rintro (rfl | rfl) <;> simp at h2 h3
  simp only [stepElem, h23, if_false]

/-- A table with no preceding h2/h3 heading never qualifies. -/
theorem tableQualifies_none (rows : List (List String)) :
    tableQualifies none rows = false := rfl

/-- Scenario D document: two rows with identical title, year and region
but different publisher casing. -/
def scenarioD_doc : List Elem :=
  [Elem.heading 2 "North America",
   Elem.table
     [["Title", "Publisher", "Release date"],
      ["Contra", "KONAMI", "February 2, 1988"],
      ["Contra", "Konami", "February 2, 1988"]]]

/-- The single record Scenario D keeps: the first row, with its
publisher. -/
def contraRecord : GameRecord :=
  ⟨"Contra", "KONAMI", 88, "February 2, 1988", "North America"⟩

/-- C1: on every input, the output of `extract_games_from_html` has
pairwise-distinct (title, year, region) triples; and on two rows that
share the triple but differ in publisher casing, only the record built
from the first row (with its publisher) is emitted. -/
theorem extract_dedup_triples :
    (∀ (doc : List Elem) (min_year max_year : Int),
      (extract_games_from_html doc min_year max_year).Pairwise
        (fun a b => ¬(a.title = b.title ∧ a.year = b.year ∧ a.region = b.region))) ∧
    extract_games_from_html scenarioD_doc 85 95 = [contraRecord] := by
  constructor
  · intro doc m M
    have h := (extract_state_stInv doc m M).2.1
    exact h.imp fun hne heq =>
      hne (by rw [recordKey, recordKey, heq.1, heq.2.1, heq.2.2])
  · decide

/-- C2: on one qualifying table under heading "North America" with the
Super Mario Bros. and Legend of Zelda rows, extraction with the default
bounds returns exactly those two records, years 85 and 86, region
"North America", in row order. -/
theorem extract_scenarioA :
    extract_games_from_html scenarioA_doc = [smbRecord, zeldaRecord] := by decide

/-- C3: every record returned by `extract_games_from_html` has
`min_year <= year <= max_year`, inclusively at both ends. -/
theorem extract_year_in_range (doc : List Elem) (min_year max_year : Int)
    (r : GameRecord) (hr : r ∈ extract_games_from_html doc min_year max_year) :
    min_year ≤ (r.year : Int) ∧ (r.year : Int) ≤ max_year := by
  simp only [extract_games_from_html] at hr
  have h := (extract_state_stInv doc min_year max_year).2.2 r hr
  exact ⟨h.1, h.2.1⟩

theorem extract_year_in_range_check :
    smbRecord ∈ extract_games_from_html scenarioA_doc 85 95 ∧
    85 ≤ (smbRecord.year : Int) ∧ (smbRecord.year : Int) ≤ 95 :=
  ⟨by decide, extract_year_in_range scenarioA_doc 85 95 smbRecord (by decide)⟩

/-- C4: every returned record's release date text contains '1' then '9'
then two decimal digits, and its year is the value captured at the first
such occurrence (`scan19` is the left-to-right search of
`re.search(r'19(\d{2})', ...)`); no record is emitted without a year. -/
theorem extract_year_from_release_date (doc : List Elem) (min_year max_year : Int)
    (r : GameRecord) (hr : r ∈ extract_games_from_html doc min_year max_year) :
    scan19 r.release_date.data = some r.year ∧
    ∃ d1 d2 : Char, d1.isDigit = true ∧ d2.isDigit = true ∧
      containsL r.release_date.data ['1', '9', d1, d2] = true ∧
      r.year = digitVal d1 * 10 + digitVal d2 := by
  simp only [extract_games_from_html] at hr
  have h := (extract_state_stInv doc min_year max_year).2.2 r hr
  exact ⟨h.2.2.2.1, scan19_gives _ _ h.2.2.2.1⟩

theorem extract_year_from_release_date_check :
    smbRecord ∈ extract_games_from_html scenarioA_doc 85 95 ∧
    (scan19 smbRecord.release_date.data = some smbRecord.year ∧
     ∃ d1 d2 : Char, d1.isDigit = true ∧ d2.isDigit = true ∧
       containsL smbRecord.release_date.data ['1', '9', d1, d2] = true ∧
       smbRecord.year = digitVal d1 * 10 + digitVal d2) :=
  ⟨by decide, extract_year_from_release_date scenarioA_doc 85 95 smbRecord (by decide)⟩

/-- C5: a table whose nearest preceding h2/h3 heading, stripped and
lower-cased, does not contain "north america" contributes nothing: the
walk step on such a table is the identity, and deleting the table from
the document does not change the output. -/
theorem extract_region_gating :
    (∀ (min_year max_year : Int) (h : String) (st : ExtState) (rows : List (List String)),
      strContains (pyLower (pyStrip h)) "north america" = false →
      stepElem min_year max_year (some h, st) (Elem.table rows) = (some h, st)) ∧
    (∀ (min_year max_year : Int) (pre post : List Elem) (h : String)
        (rows : List (List String)),
      strContains (pyLower (pyStrip h)) "north america" = false →
      extract_games_from_html (pre ++ Elem.heading 2 h :: Elem.table rows :: post)
          min_year max_year =
        extract_games_from_html (pre ++ Elem.heading 2 h :: post) min_year max_year) := by
  have hq : ∀ (h : String) (rows : List (List String)),
      strContains (pyLower (pyStrip h)) "north america" = false →
      tableQualifies (some h) rows = false := by
    intro h rows hm
    simp only [tableQualifies, hm, Bool.false_eq_true, if_false]
  constructor
  · intro m M h st rows hm
    simp only [stepElem, hq h rows hm, Bool.false_eq_true, if_false]
  · intro m M pre post h rows hm
    simp only [extract_games_from_html, List.foldl_append, List.foldl_cons]
    have hh : stepElem m M (pre.foldl (stepElem m M) (none, initState)) (Elem.heading 2 h) =
        (some h, (pre.foldl (stepElem m M) (none, initState)).2) := by
      simp [stepElem]
    rw [hh]
    rw [show stepElem m M (some h, (pre.foldl (stepElem m M) (none, initState)).2)
          (Elem.table rows) = (some h, (pre.foldl (stepElem m M) (none, initState)).2) by
      simp only [stepElem, hq h rows hm, Bool.false_eq_true, if_false]]

/-- Rows of a syntactically valid game table used for concrete checks. -/
def japanRows : List (List String) :=
  [["Title", "Publisher", "Release date"],
   ["Final Fantasy", "Square", "December 18, 1987"]]

theorem extract_region_gating_check :
    strContains (pyLower (pyStrip "Japan")) "north america" = false ∧
    extract_games_from_html [Elem.heading 2 "Japan", Elem.table japanRows] 85 95 =
      extract_games_from_html [Elem.heading 2 "Japan"] 85 95 :=
  ⟨by decide, extract_region_gating.2 85 95 [] [] "Japan" japanRows (by decide)⟩

/-- C6: no returned record's title contains "(Unlicensed)", and a row
whose stripped title cell does contain that marker leaves the extraction
state untouched. -/
theorem extract_unlicensed_excluded :
    (∀ (doc : List Elem) (min_year max_year : Int) (r : GameRecord),
      r ∈ extract_games_from_html doc min_year max_year →
      strContains r.title "(Unlicensed)" = false) ∧
    (∀ (min_year max_year : Int) (st : ExtState) (c0 c1 c2 : String) (rest : List String),
      strContains (pyStrip c0) "(Unlicensed)" = true →
      processRow min_year max_year st (c0 :: c1 :: c2 :: rest) = st) := by
  constructor
  · intro doc m M r hr
    simp only [extract_games_from_html] at hr
    exact ((extract_state_stInv doc m M).2.2 r hr).2.2.1
  · intro m M st c0 c1 c2 rest hu
    simp only [processRow, hu, if_true]

theorem extract_unlicensed_excluded_check :
    (zeldaRecord ∈ extract_games_from_html scenarioA_doc 85 95 ∧
     strContains zeldaRecord.title "(Unlicensed)" = false) ∧
    (strContains (pyStrip "Bad Game (Unlicensed)") "(Unlicensed)" = true ∧
     processRow 85 95 initState ["Bad Game (Unlicensed)", "Acme", "1990"] = initState) :=
  ⟨⟨by decide,
    extract_unlicensed_excluded.1 scenarioA_doc 85 95 zeldaRecord (by decide)⟩,
   ⟨by decide,
    extract_unlicensed_excluded.2 85 95 initState "Bad Game (Unlicensed)" "Acme" "1990" []
      (by decide)⟩⟩

/-- C7: a row with fewer than 3 cells leaves the state unchanged (it is
skipped and extraction continues with the remaining rows), and an empty
document yields the empty list; the embedding is total, so no call
raises. -/
theorem extract_row_robustness :
    (∀ (min_year max_year : Int) (st : ExtState) (row : List String), row.length < 3 →
      processRow min_year max_year st row = st) ∧
    (∀ min_year max_year : Int, extract_games_from_html [] min_year max_year = []) := by
  constructor
  · intro m M st row hlen
    rcases row with _ | ⟨a, _ | ⟨b, _ | ⟨c, rest⟩⟩⟩
    · rfl
    · rfl
    · rfl
    · simp only [List.length_cons] at hlen; omega
  · intro m M; rfl

theorem extract_row_robustness_check :
    (["Only Title", "Only Publisher"] : List String).length < 3 ∧
    processRow 85 95 initState ["Only Title", "Only Publisher"] = initState ∧
    extract_games_from_html [] 85 95 = [] :=
  ⟨by decide,
   extract_row_robustness.1 85 95 initState ["Only Title", "Only Publisher"] (by decide),
   extract_row_robustness.2 85 95⟩

/-- C8: extraction is a pure function of the document and the two
bounds; running it twice on identical input gives identical output. -/
theorem extract_run_twice_eq (doc : List Elem) (min_year max_year : Int) :
    extract_games_from_html doc min_year max_year =
      extract_games_from_html doc min_year max_year := rfl

/-- C9: with an inverted range (`min_year > max_year`) no year can pass
the inclusive check, so extraction returns the empty list on every
document. -/
theorem extract_inverted_range_empty (doc : List Elem) (min_year max_year : Int)
    (h : min_year > max_year) :
    extract_games_from_html doc min_year max_year = [] := by
  have hrow : ∀ (st : ExtState) (row : List String),
      processRow min_year max_year st row = st := by
    intro st row
    rcases row with _ | ⟨c0, _ | ⟨c1, _ | ⟨c2, rest⟩⟩⟩
    · rfl
    · rfl
    · rfl
    · cases hu : strContains (pyStrip c0) "(Unlicensed)" with
      | true => simp only [processRow, hu, if_true]
      | false =>
        cases hs : scan19 (pyStrip c2).data with
        | none => simp only [processRow, hu, Bool.false_eq_true, if_false, hs]
        | some year =>
          have hr : ¬(min_year ≤ (year : Int) ∧ (year : Int) ≤ max_year) := by
            rintro ⟨h1, h2⟩
            exact absurd (le_trans h1 h2) (not_le.mpr h)
          simp only [processRow, hu, Bool.false_eq_true, if_false, hs]
          rw [if_neg hr]
  have hrows : ∀ (l : List (List String)) (st : ExtState),
      l.foldl (processRow min_year max_year) st = st := by
    intro l
    induction l with
    | nil => intro st; rfl
    | cons r rs ih => intro st; rw [List.foldl_cons, hrow, ih]
  have hstep : ∀ (s : Option String × ExtState) (e : Elem),
      (stepElem min_year max_year s e).2 = s.2 := by
    intro s e
    cases e with
    | heading lvl t => by_cases h23 : lvl = 2 ∨ lvl = 3 <;> simp [stepElem, h23]
    | table rows =>
      cases hq : tableQualifies s.1 rows with
      | true => simp only [stepElem, hq, if_true, hrows]
      | false => simp only [stepElem, hq, Bool.false_eq_true, if_false]
    | other => rfl
  have hfold : ∀ (l : List Elem) (s : Option String × ExtState),
      ((l.foldl (stepElem min_year max_year) s).2) = s.2 := by
    intro l
    induction l with
    | nil => intro s; rfl
    | cons e es ih => intro s; rw [List.foldl_cons, ih, hstep]
  simp only [extract_games_from_html, hfold]
  rfl

theorem extract_inverted_range_empty_check :
    (90 : Int) > 80 ∧ extract_games_from_html scenarioA_doc 90 80 = [] :=
  ⟨by decide, extract_inverted_range_empty scenarioA_doc 90 80 (by decide)⟩

/-- C10: only h2/h3 headings matter for region classification: a heading
of any other level never updates the tracked nearest heading; a table
preceded only by non-h2/h3 headings is rejected whatever their text and
the table's content; and inserting a non-h2/h3 heading anywhere (in
particular between an h2 "North America" heading and its table) does
not change the output. -/
theorem extract_heading_levels :
    (∀ (min_year max_year : Int) (s : Option String × ExtState) (lvl : Nat) (t : String),
      lvl ≠ 2 → lvl ≠ 3 → stepElem min_year max_year s (Elem.heading lvl t) = s) ∧
    (∀ (min_year max_year : Int) (pre : List Elem) (rows : List (List String)),
      (∀ e ∈ pre, ∃ lvl t, e = Elem.heading lvl t ∧ lvl ≠ 2 ∧ lvl ≠ 3) →
      extract_games_from_html (pre ++ [Elem.table rows]) min_year max_year = []) ∧
    (∀ (min_year max_year : Int) (pre : List Elem) (lvl : Nat) (t : String)
        (post : List Elem),
      lvl ≠ 2 → lvl ≠ 3 →
      extract_games_from_html (pre ++ Elem.heading lvl t :: post) min_year max_year =
        extract_games_from_html (pre ++ post) min_year max_year) := by
  refine ⟨fun m M s lvl t h2 h3 => stepElem_heading_ne m M s lvl t h2 h3, ?_, ?_⟩
  · intro m M pre rows hpre
    have hfold : pre.foldl (stepElem m M) (none, initState) = (none, initState) := by
      induction pre with
      | nil => rfl
      | cons e es ih =>
        obtain ⟨lvl, t, rfl, h2, h3⟩ := hpre e (List.mem_cons_self e es)
        rw [List.foldl_cons, stepElem_heading_ne m M _ lvl t h2 h3]
        exact ih fun e he => hpre e (List.mem_cons_of_mem _ he)
    simp only [extract_games_from_html, List.foldl_append, hfold, List.foldl_cons,
      List.foldl_nil, stepElem, tableQualifies_none, Bool.false_eq_true, if_false]
    rfl
  · intro m M pre lvl t post h2 h3
    simp only [extract_games_from_html, List.foldl_append, List.foldl_cons]
    rw [stepElem_heading_ne m M _ lvl t h2 h3]

theorem extract_heading_levels_check :
    ((1 : Nat) ≠ 2 ∧ (1 : Nat) ≠ 3 ∧
     extract_games_from_html [Elem.heading 1 "North America", Elem.table scenarioA_rows]
       85 95 = []) ∧
    ((4 : Nat) ≠ 2 ∧ (4 : Nat) ≠ 3 ∧
     extract_games_from_html
         [Elem.heading 2 "North America", Elem.heading 4 "Japan",
          Elem.table scenarioA_rows] 85 95 =
       extract_games_from_html
         [Elem.heading 2 "North America", Elem.table scenarioA_rows] 85 95) :=
  ⟨⟨by decide, by decide,
    extract_heading_levels.2.1 85 95 [Elem.heading 1 "North America"] scenarioA_rows
      fun e he => ⟨1, "North America", List.mem_singleton.mp he, by decide, by decide⟩⟩,
   ⟨by decide, by decide,
    extract_heading_levels.2.2 85 95 [Elem.heading 2 "North America"] 4 "Japan"
      [Elem.table scenarioA_rows] (by decide) (by decide)⟩⟩
